import Mathlib

/-!
Shallow embedding of `src/include/decomp_util/ellipsoid_decomp.h`
(the `EllipsoidDecomp<Dim>` decomposition orchestrator of DecompUtil).

Coordinates (`decimal_t`, a C++ `double`) are modelled as real numbers;
a `Dim`-dimensional vector `Vecf<Dim>` is `Fin Dim → ℝ`.  C++ `unsigned int`
arithmetic is modelled on `ℕ` with explicit `% 2^32` where wraparound can
occur.  The per-segment fitting collaborator `LineSegment` lives in a header
that is not part of `src/`; it is treated as an abstract parameter (`Fitter`)
exactly as the orchestrator consumes it.  Out-of-bounds `std::vector` reads
(undefined behaviour in C++) are modelled by `Option`: `none` stands for the
absence of a well-defined result.
-/

/-- A `Vecf<Dim>` coordinate vector. -/
abbrev V (d : ℕ) := Fin d → ℝ

/-- Eigen's `a.dot(b)`. -/
noncomputable def dot {d : ℕ} (a b : V d) : ℝ := ∑ k, a k * b k

/-- Eigen's `v.norm()`. -/
noncomputable def vnorm {d : ℕ} (v : V d) : ℝ := Real.sqrt (dot v v)

/-- Eigen's `v.normalized()`, i.e. `v / v.norm()`. -/
noncomputable def normalized {d : ℕ} (v : V d) : V d := fun k => v k / vnorm v

/-- A hyperplane: anchor point `p_` and (not necessarily unit) normal `n_`,
as in decomp_util's geometry types. -/
structure Hyperplane (d : ℕ) where
  p_ : V d
  n_ : V d

/-- A polyhedron is its ordered list of hyperplanes (`vs_`); `Polyhedron::add`
appends to it. -/
abbrev Polyhedron (d : ℕ) := List (Hyperplane d)

/-- Midpoint `(a + b) / 2` of two path points, as computed in
`set_constraints` / `get_constraints`. -/
noncomputable def mid {d : ℕ} (a b : V d) : V d := fun k => (a k + b k) / 2

/-- Element `path[m]` with an (unused in-range) default, for stating results. -/
noncomputable def nth {d : ℕ} (path : List (V d)) (m : ℕ) : V d := path.getD m 0

/-- The sign resolution shared by the `LinearConstraint` constructor and
`tighten_polyhedron` (source lines 51-55): take the stored normal `n_` and
flip it when the interior point lies on its positive side, i.e. when
`n.dot(pt_inside) - p_.dot(n) > 0`. -/
noncomputable def resolve {d : ℕ} (pt : V d) (h : Hyperplane d) : V d :=
  if 0 < dot h.n_ pt - dot h.p_ h.n_ then (fun k => -(h.n_ k)) else h.n_

/-- Modelled from the spec: the `LinearConstraint<Dim>` constructor lives in
decomp_util's geometry headers, which are absent from `src/`.  Per the spec's
data model and extractor sections: row `j` is the hyperplane normal with its
sign resolved so that the interior point satisfies `a·x ≤ b`; the right-hand
side is `a·p`, tightened by `distance` times the normal's length (so that the
clearance shift of the anchor along the unit outward normal is reflected in
`b`); the interior point used is stored alongside `A` and `b`. -/
structure LinearConstraint (d : ℕ) where
  A : List (V d)
  b : List ℝ
  pt : V d

/-- Modelled from the spec: construction of `LinearConstraint(pt, hyps,
distance)` (see `LinearConstraint`). -/
noncomputable def mkLinearConstraint {d : ℕ} (pt : V d) (hyps : List (Hyperplane d))
    (distance : ℝ) : LinearConstraint d :=
  { A := hyps.map fun h => resolve pt h
    b := hyps.map fun h => dot (resolve pt h) h.p_ - distance * vnorm h.n_
    pt := pt }

/-- The mutable state of an `EllipsoidDecomp<Dim>` object.  `E` is the opaque
carrier of the collaborator-produced ellipsoids (the orchestrator only stores
them).  The `lines_` vector of collaborator handles is not retained: its
observable content is captured by the fitter's results. -/
structure EllipsoidDecomp (d : ℕ) (E : Type) where
  path_ : List (V d)
  is_path_circle_only_ : Bool
  obs_ : List (V d)
  ellipsoids_ : List E
  polyhedrons_ : List (Polyhedron d)
  local_bbox_ : V d
  global_bbox_min_ : V d
  global_bbox_max_ : V d

/-- The external `LineSegment` fitting capability, as the orchestrator uses
it: from the local bounding box, the obstacle set, the two endpoints and the
offset it produces one ellipsoid and one polyhedron
(`set_local_bbox` / `set_obs_store` / `set_obs` / `dilate` /
`get_ellipsoid` / `get_polyhedron`). -/
def Fitter (d : ℕ) (E : Type) : Type :=
  V d → List (V d) → V d → V d → ℝ → E × Polyhedron d

/-- The modulus `2^32` of C++ `unsigned int`. -/
def UINT_MOD : ℕ := 2 ^ 32

/-- The path-index advance per segment: `idx_path++` plus one extra `++` when
`is_path_circle_only_` holds, i.e. 2 in paired mode and 1 in sequential
mode. -/
def strideOf (is_path_circle_only : Bool) : ℕ := if is_path_circle_only then 2 else 1

/-- The segment count computed at the top of `dilate`:
`unsigned int n_segments = n_path - 1` (wrapping on `unsigned int`),
overwritten by `n_path / 2` in paired mode. -/
def n_segments_of (n_path : ℕ) (is_path_circle_only : Bool) : ℕ :=
  if is_path_circle_only then n_path / 2 else (n_path + UINT_MOD - 1) % UINT_MOD

/-- One face of the update loop of `tighten_polyhedron` (source lines 48-61):
copy the normal, flip the copy if the interior point is on its positive side,
normalize the copy, and move the anchor by `distance` against it.  Only `p_`
is written back; `n_` is stored unchanged. -/
noncomputable def tightenFace {d : ℕ} (pt_inside : V d) (distance : ℝ)
    (h : Hyperplane d) : Hyperplane d :=
  let n := normalized (resolve pt_inside h)
  { p_ := fun k => h.p_ k - distance * n k, n_ := h.n_ }

/-- The whole face loop of `tighten_polyhedron` applied to one polyhedron. -/
noncomputable def tightenPoly {d : ℕ} (pt_inside : V d) (distance : ℝ)
    (P : Polyhedron d) : Polyhedron d :=
  P.map (tightenFace pt_inside distance)

/-- In-place update of element `i` of a list (no-op when `i` is out of range;
in C++ an out-of-range `polyhedrons_[i]` would be undefined behaviour, which
no claim exercises). -/
def listModify {α : Type} (f : α → α) : ℕ → List α → List α
  | _, [] => []
  | 0, x :: xs => f x :: xs
  | n + 1, x :: xs => x :: listModify f n xs

/-- Member function `tighten_polyhedron(i, pt_inside, distance)` (source lines 46-62). -/
noncomputable def tighten_polyhedron {d : ℕ} {E : Type} (st : EllipsoidDecomp d E)
    (i : ℕ) (pt_inside : V d) (distance : ℝ) : EllipsoidDecomp d E :=
  { st with polyhedrons_ := listModify (tightenPoly pt_inside distance) i st.polyhedrons_ }

/-- The loop body of `set_constraints` (source lines 76-94): walk the
polyhedron list with the path cursor `idx_path`, take the midpoint of
`path_[idx_path]` and `path_[idx_path+1]` as interior point, build the
`LinearConstraint`, tighten the polyhedron when `distance > 0`, and advance
the cursor by the mode's stride.  Path reads out of range give `none`. -/
noncomputable def scLoop {d : ℕ} (path : List (V d)) (stride : ℕ) (distance : ℝ) :
    List (Polyhedron d) → ℕ → Option (List (LinearConstraint d) × List (Polyhedron d))
  | [], _ => some ([], [])
  | P :: Ps, idx_path =>
    path[idx_path]?.bind fun a =>
    path[idx_path + 1]?.bind fun b =>
    (scLoop path stride distance Ps (idx_path + stride)).bind fun r =>
    some (mkLinearConstraint (mid a b) P distance :: r.1,
      (if 0 < distance then tightenPoly (mid a b) distance P else P) :: r.2)

/-- Member function `set_constraints(poly_constraints, distance)` (source lines 70-95):
returns the constraints written to the external vector together with the
updated object state (its polyhedrons possibly tightened in place). -/
noncomputable def set_constraints {d : ℕ} {E : Type} (st : EllipsoidDecomp d E)
    (distance : ℝ) :
    Option (List (LinearConstraint d) × EllipsoidDecomp d E) :=
  match scLoop st.path_ (strideOf st.is_path_circle_only_) distance st.polyhedrons_ 0 with
  | some (cs, Ps) => some (cs, { st with polyhedrons_ := Ps })
  | none => none

/-- The loop of the no-argument `get_constraints` (source lines 107-115):
for polyhedron `i` the interior point is `(path_[i] + path_[i+1]) / 2` —
the cursor always advances by 1, whatever the path mode. -/
noncomputable def gcLoop {d : ℕ} (path : List (V d)) :
    List (Polyhedron d) → ℕ → Option (List (LinearConstraint d))
  | [], _ => some []
  | P :: Ps, i =>
    path[i]?.bind fun a =>
    path[i + 1]?.bind fun b =>
    (gcLoop path Ps (i + 1)).bind fun cs =>
    some (mkLinearConstraint (mid a b) P 0 :: cs)

/-- The no-argument `get_constraints()` (source lines 107-115). -/
noncomputable def get_constraints {d : ℕ} {E : Type} (st : EllipsoidDecomp d E) :
    Option (List (LinearConstraint d)) :=
  gcLoop st.path_ st.polyhedrons_ 0

/-- The four box faces appended by `add_global_bbox` for `Dim = 2`
(source lines 305-316), in source order: +X at the max corner, -X at the min
corner, +Y at the max corner, -Y at the min corner, the other coordinate 0. -/
noncomputable def bboxFaces2 (gmin gmax : V 2) : List (Hyperplane 2) :=
  [⟨![gmax 0, 0], ![1, 0]⟩, ⟨![gmin 0, 0], ![-1, 0]⟩,
   ⟨![0, gmax 1], ![0, 1]⟩, ⟨![0, gmin 1], ![0, -1]⟩]

/-- The six box faces appended by `add_global_bbox` for `Dim = 3`
(source lines 318-332), in source order: +Z at max, -Z at min, +X at max,
-X at min, +Y at max, and — exactly as written on source line 331 — the -Y
face anchored at `global_bbox_max_(1)`, not at the min corner. -/
noncomputable def bboxFaces3 (gmin gmax : V 3) : List (Hyperplane 3) :=
  [⟨![0, 0, gmax 2], ![0, 0, 1]⟩, ⟨![0, 0, gmin 2], ![0, 0, -1]⟩,
   ⟨![gmax 0, 0, 0], ![1, 0, 0]⟩, ⟨![gmin 0, 0, 0], ![-1, 0, 0]⟩,
   ⟨![0, gmax 1, 0], ![0, 1, 0]⟩, ⟨![0, gmax 1, 0], ![0, -1, 0]⟩]

/-- Dimension dispatch of the `enable_if`-selected `add_global_bbox`
overloads; the C++ template only instantiates for `Dim ∈ {2, 3}`. -/
noncomputable def bboxFaces : (d : ℕ) → V d → V d → List (Hyperplane d)
  | 2, gmin, gmax => bboxFaces2 gmin gmax
  | 3, gmin, gmax => bboxFaces3 gmin gmax
  | _, _, _ => []

/-- Member function `add_global_bbox(Vs)`: append the box faces to the polyhedron. -/
noncomputable def add_global_bbox {d : ℕ} (gmin gmax : V d) (P : Polyhedron d) : Polyhedron d :=
  P ++ bboxFaces d gmin gmax

/-- The segment-construction and dilation loop of `dilate` (source lines
135-145 together with the per-segment work of `threadingFunction`, lines
220-233, and the result read-back, lines 180-183): segment `i` is built from
`path[idx_path]` and `path[idx_path+1]`, configured with the stored local
bounding box and obstacle set, and dilated with `offset_x`; the cursor
advances by `stride` per segment.  A path read out of range gives `none`. -/
noncomputable def dilateLoop {d : ℕ} {E : Type} (fit : Fitter d E) (lb : V d) (obs : List (V d))
    (offset_x : ℝ) (path : List (V d)) (stride : ℕ) :
    ℕ → ℕ → Option (List (E × Polyhedron d))
  | _, 0 => some []
  | idx_path, k + 1 =>
    path[idx_path]?.bind fun a =>
    path[idx_path + 1]?.bind fun b =>
    (dilateLoop fit lb obs offset_x path stride (idx_path + stride) k).bind fun rest =>
    some (fit lb obs a b offset_x :: rest)

/-- Member function `dilate(path, offset_x, is_path_circle_only)` (source lines 123-215):
compute the segment count on `unsigned int` arithmetic, fit every segment
(the four worker threads jointly cover each segment index exactly once, see
the thread-partition development below, so the parallel phase equals this
sequential loop), store path, ellipsoids and polyhedrons, and append the
global bounding-box faces to every polyhedron when either box corner has
non-zero norm. -/
noncomputable def dilate {d : ℕ} {E : Type} (fit : Fitter d E)
    (st : EllipsoidDecomp d E) (path : List (V d)) (offset_x : ℝ)
    (is_path_circle_only : Bool) : Option (EllipsoidDecomp d E) :=
  let n_path : ℕ := path.length % UINT_MOD
  let n_segments : ℕ := n_segments_of n_path is_path_circle_only
  match dilateLoop fit st.local_bbox_ st.obs_ offset_x path
      (strideOf is_path_circle_only) 0 n_segments with
  | none => none
  | some results =>
    some { st with
      path_ := path
      is_path_circle_only_ := is_path_circle_only
      ellipsoids_ := results.map Prod.fst
      polyhedrons_ :=
        if vnorm st.global_bbox_min_ ≠ 0 ∨ vnorm st.global_bbox_max_ ≠ 0 then
          (results.map Prod.snd).map (add_global_bbox st.global_bbox_min_ st.global_bbox_max_)
        else results.map Prod.snd }

/-- Declaration `int size_section = std::ceil(n_segments/4);` (source line 151):
`n_segments/4` is already an integer division, so the `std::ceil` is the
identity and the block size is `⌊n_segments / 4⌋`. -/
def size_section (n_segments : ℕ) : ℕ := n_segments / 4

/-- The `(start, end)` pair passed to worker `j` by the thread-launch loop of
`dilate` (source lines 154-170), reproduced as the loop's recurrence:
`start` begins at 0 and `end` at `size_section`; after launching worker `j`,
`start` grows by `size_section` and `end` is set to `n_segments` when
`j == 4-2`, else grows by `size_section`. -/
def threadRange (n_segments : ℕ) : ℕ → ℕ × ℕ
  | 0 => (0, size_section n_segments)
  | j + 1 =>
    let r := threadRange n_segments j
    (r.1 + size_section n_segments,
      if j == 2 then n_segments else r.2 + size_section n_segments)

/-- The four index ranges handed to the four workers. -/
def threadRanges (n_segments : ℕ) : List (ℕ × ℕ) :=
  (List.range 4).map (threadRange n_segments)

/-- Concrete fitter used by the witnesses: every segment yields the trivial
(empty) polyhedron and a unit ellipsoid token. -/
noncomputable def fitW : Fitter 2 Unit := fun _ _ _ _ _ => ((), [])

/-- Concrete freshly-constructed 2-D orchestrator state (all fields as the
default constructor leaves them: zero vectors, empty containers). -/
noncomputable def stW : EllipsoidDecomp 2 Unit :=
  { path_ := [], is_path_circle_only_ := false, obs_ := [], ellipsoids_ := [],
    polyhedrons_ := [], local_bbox_ := 0, global_bbox_min_ := 0,
    global_bbox_max_ := 0 }

/-- Concrete one-polyhedron state for the C5 witness: one face with anchor
`(0,1)` and (non-unit) normal `(0,3)`. -/
noncomputable def st5 : EllipsoidDecomp 2 Unit :=
  { path_ := [], is_path_circle_only_ := false, obs_ := [], ellipsoids_ := [],
    polyhedrons_ := [[⟨![0, 1], ![0, 3]⟩]], local_bbox_ := 0,
    global_bbox_min_ := 0, global_bbox_max_ := 0 }

/-- Concrete state for the zero-clearance witnesses: a 2-point sequential
path and one polyhedron with a single face whose interior-point test value
is exactly 0 (no flip). -/
noncomputable def stW10 : EllipsoidDecomp 2 Unit :=
  { path_ := [![0, 0], ![2, 0]], is_path_circle_only_ := false, obs_ := [],
    ellipsoids_ := [], polyhedrons_ := [[⟨![1, 0], ![1, 0]⟩]], local_bbox_ := 0,
    global_bbox_min_ := 0, global_bbox_max_ := 0 }

/-- The constraint list produced by `set_constraints(stW10, 0)`. -/
noncomputable def csW10 : List (LinearConstraint 2) :=
  [{ A := [![1, 0]], b := [1], pt := mid ![0, 0] ![2, 0] }]

/-- Concrete one-face state for the C6 witness (outward stored normal of
length 2). -/
noncomputable def st6w : EllipsoidDecomp 2 Unit :=
  { path_ := [], is_path_circle_only_ := false, obs_ := [], ellipsoids_ := [],
    polyhedrons_ := [[⟨![1, 0], ![2, 0]⟩]], local_bbox_ := 0,
    global_bbox_min_ := 0, global_bbox_max_ := 0 }

/-- Concrete one-face state for the C6 counterexample: the stored normal
`(-1, 0)` points inward (towards the interior point `(0,0)`). -/
noncomputable def st6c : EllipsoidDecomp 2 Unit :=
  { path_ := [], is_path_circle_only_ := false, obs_ := [], ellipsoids_ := [],
    polyhedrons_ := [[⟨![1, 0], ![-1, 0]⟩]], local_bbox_ := 0,
    global_bbox_min_ := 0, global_bbox_max_ := 0 }

/-- Concrete paired-mode state: 4 waypoints, hence 2 (empty) polyhedrons,
polyhedron 1 originating from the segment `path[2]–path[3]`. -/
noncomputable def stC3 : EllipsoidDecomp 2 Unit :=
  { path_ := [![0, 0], ![2, 0], ![10, 0], ![12, 0]], is_path_circle_only_ := true,
    obs_ := [], ellipsoids_ := [(), ()], polyhedrons_ := [[], []], local_bbox_ := 0,
    global_bbox_min_ := 0, global_bbox_max_ := 0 }

/-- Constraints produced by `set_constraints(stC3, 0)` (paired stride). -/
noncomputable def csC3s : List (LinearConstraint 2) :=
  [mkLinearConstraint (mid ![0, 0] ![2, 0]) [] 0,
    mkLinearConstraint (mid ![10, 0] ![12, 0]) [] 0]

/-- Constraints produced by the no-argument `get_constraints()` on `stC3`
(stride 1, whatever the mode). -/
noncomputable def csC3g : List (LinearConstraint 2) :=
  [mkLinearConstraint (mid ![0, 0] ![2, 0]) [] 0,
    mkLinearConstraint (mid ![2, 0] ![10, 0]) [] 0]

/-- Concrete two-point sequential state for C8: a degenerate segment with
midpoint `(0,0)` and one polyhedron with a single face `p = (1,0)`,
`n = (1,0)` at distance 1 from the interior point. -/
noncomputable def stC8 : EllipsoidDecomp 2 Unit :=
  { path_ := [![0, 0], ![0, 0]], is_path_circle_only_ := false, obs_ := [],
    ellipsoids_ := [()], polyhedrons_ := [[⟨![1, 0], ![1, 0]⟩]], local_bbox_ := 0,
    global_bbox_min_ := 0, global_bbox_max_ := 0 }

/-- First-call constraints at clearance `1/4`. -/
noncomputable def csW8a : List (LinearConstraint 2) :=
  [mkLinearConstraint (mid ![0, 0] ![0, 0]) [⟨![1, 0], ![1, 0]⟩] (1 / 4)]

/-- State after the first `set_constraints(·, 1/4)` call on `stC8`. -/
noncomputable def stC8b : EllipsoidDecomp 2 Unit :=
  { stC8 with polyhedrons_ :=
      [tightenPoly (mid ![0, 0] ![0, 0]) (1 / 4) [⟨![1, 0], ![1, 0]⟩]] }

/-- Second-call constraints at clearance `1/4`. -/
noncomputable def csW8b : List (LinearConstraint 2) :=
  [mkLinearConstraint (mid ![0, 0] ![0, 0])
    (tightenPoly (mid ![0, 0] ![0, 0]) (1 / 4) [⟨![1, 0], ![1, 0]⟩]) (1 / 4)]

/-- State after the second `set_constraints(·, 1/4)` call. -/
noncomputable def stC8c : EllipsoidDecomp 2 Unit :=
  { stC8 with polyhedrons_ :=
      [tightenPoly (mid ![0, 0] ![0, 0]) (1 / 4)
        (tightenPoly (mid ![0, 0] ![0, 0]) (1 / 4) [⟨![1, 0], ![1, 0]⟩])] }

/-- First-call constraints at clearance `2`. -/
noncomputable def csC8a : List (LinearConstraint 2) :=
  [mkLinearConstraint (mid ![0, 0] ![0, 0]) [⟨![1, 0], ![1, 0]⟩] 2]

/-- State after the first `set_constraints(·, 2)` call on `stC8`. -/
noncomputable def stC8b2 : EllipsoidDecomp 2 Unit :=
  { stC8 with polyhedrons_ :=
      [tightenPoly (mid ![0, 0] ![0, 0]) 2 [⟨![1, 0], ![1, 0]⟩]] }

/-- Second-call constraints at clearance `2`. -/
noncomputable def csC8b : List (LinearConstraint 2) :=
  [mkLinearConstraint (mid ![0, 0] ![0, 0])
    (tightenPoly (mid ![0, 0] ![0, 0]) 2 [⟨![1, 0], ![1, 0]⟩]) 2]

/-- State after the second `set_constraints(·, 2)` call: the face is back at
its original anchor. -/
noncomputable def stC8c2 : EllipsoidDecomp 2 Unit :=
  { stC8 with polyhedrons_ := [[⟨![1, 0], ![1, 0]⟩]] }

/-! ### Vector algebra helpers -/

lemma dot_comm {d : ℕ} (a b : V d) : dot a b = dot b a := by
  unfold dot
  exact Finset.sum_congr rfl fun k _ => mul_comm _ _

lemma dot_self_nonneg {d : ℕ} (v : V d) : 0 ≤ dot v v :=
  Finset.sum_nonneg fun k _ => mul_self_nonneg _

lemma dot_self_eq_zero {d : ℕ} {v : V d} (h : dot v v = 0) : v = 0 := by
  funext k
  have hk := (Finset.sum_eq_zero_iff_of_nonneg
    (fun i _ => mul_self_nonneg (v i))).mp h k (Finset.mem_univ k)
  simpa using mul_self_eq_zero.mp hk

lemma vnorm_pos {d : ℕ} {v : V d} (hv : v ≠ 0) : 0 < vnorm v := by
  apply Real.sqrt_pos.mpr
  rcases lt_or_eq_of_le (dot_self_nonneg v) with hlt | heq
  · exact hlt
  · exact absurd (dot_self_eq_zero heq.symm) hv

lemma mul_self_vnorm {d : ℕ} (v : V d) : vnorm v * vnorm v = dot v v :=
  Real.mul_self_sqrt (dot_self_nonneg v)

lemma dot_neg_left {d : ℕ} (a b : V d) : dot (fun k => -(a k)) b = -dot a b := by
  unfold dot
  rw [← Finset.sum_neg_distrib]
  exact Finset.sum_congr rfl fun k _ => by ring

lemma dot_neg_right {d : ℕ} (a b : V d) : dot a (fun k => -(b k)) = -dot a b := by
  rw [dot_comm, dot_neg_left, dot_comm]

lemma dot_sub_mul_right {d : ℕ} (a p u : V d) (c : ℝ) :
    dot a (fun k => p k - c * u k) = dot a p - c * dot a u := by
  unfold dot
  rw [Finset.mul_sum, ← Finset.sum_sub_distrib]
  exact Finset.sum_congr rfl fun k _ => by ring

lemma dot_sub_mul_left {d : ℕ} (p u x : V d) (c : ℝ) :
    dot (fun k => p k - c * u k) x = dot p x - c * dot u x := by
  rw [dot_comm, dot_sub_mul_right, dot_comm p x, dot_comm u x]

lemma dot_normalized_right {d : ℕ} (a v : V d) : dot a (normalized v) = dot a v / vnorm v := by
  unfold normalized dot
  rw [Finset.sum_div]
  exact Finset.sum_congr rfl fun k _ => by ring

lemma dot_normalized_self {d : ℕ} {v : V d} (hv : v ≠ 0) : dot v (normalized v) = vnorm v := by
  rw [dot_normalized_right, ← mul_self_vnorm]
  field_simp

lemma vnorm_neg {d : ℕ} (v : V d) : vnorm (fun k => -(v k)) = vnorm v := by
  unfold vnorm
  rw [dot_neg_left, dot_neg_right, neg_neg]

lemma normalized_neg {d : ℕ} (v : V d) :
    normalized (fun k => -(v k)) = fun k => -(normalized v k) := by
  unfold normalized
  rw [vnorm_neg]
  funext k
  ring

lemma vnorm_normalized {d : ℕ} {v : V d} (hv : v ≠ 0) : vnorm (normalized v) = 1 := by
  have hN := vnorm_pos hv
  have hdot : dot (normalized v) (normalized v) = 1 := by
    rw [dot_normalized_right, dot_comm, dot_normalized_self hv, div_self hN.ne']
  unfold vnorm
  rw [hdot, Real.sqrt_one]

/-! ### Properties of the sign resolution and of face tightening -/

lemma resolve_n_ne_zero {d : ℕ} (pt : V d) {h : Hyperplane d} (hn : h.n_ ≠ 0) :
    resolve pt h ≠ 0 := by
  unfold resolve
  split
  · intro hc
    apply hn
    funext k
    have := congrFun hc k
    simpa using neg_eq_zero.mp this
  · exact hn

lemma vnorm_resolve {d : ℕ} (pt : V d) (h : Hyperplane d) :
    vnorm (resolve pt h) = vnorm h.n_ := by
  unfold resolve
  split
  · exact vnorm_neg h.n_
  · rfl

lemma resolve_spec {d : ℕ} (pt : V d) (h : Hyperplane d) :
    dot (resolve pt h) pt - dot (resolve pt h) h.p_ =
      -|dot h.n_ pt - dot h.p_ h.n_| := by
  unfold resolve
  split
  · rename_i hpos
    rw [dot_neg_left, dot_neg_left, abs_of_pos hpos, dot_comm h.p_ h.n_]
    ring
  · rename_i hnpos
    rw [abs_of_nonpos (not_lt.mp hnpos), dot_comm h.p_ h.n_]
    ring

lemma tightenFace_p {d : ℕ} (pt : V d) (dist : ℝ) (h : Hyperplane d) :
    (tightenFace pt dist h).p_ = fun k => h.p_ k - dist * normalized (resolve pt h) k := rfl

lemma tightenFace_n {d : ℕ} (pt : V d) (dist : ℝ) (h : Hyperplane d) :
    (tightenFace pt dist h).n_ = h.n_ := rfl

/-- Evaluating the tightened anchor against the resolved outward normal:
the inward shift adds `distance * ‖n‖` to the (nonpositive) signed value of
the interior point. -/
lemma resolve_dot_tightenFace {d : ℕ} (pt : V d) (dist : ℝ) (h : Hyperplane d)
    (hn : h.n_ ≠ 0) :
    dot (resolve pt h) pt - dot (resolve pt h) (tightenFace pt dist h).p_ =
      -|dot h.n_ pt - dot h.p_ h.n_| + dist * vnorm h.n_ := by
  rw [tightenFace_p, dot_sub_mul_right, dot_normalized_self (resolve_n_ne_zero pt hn),
    vnorm_resolve]
  have hspec := resolve_spec pt h
  linarith

/-- Under the clearance bound, a second tightening resolves the same outward
direction as the first: the sign test of `tighten_polyhedron` gives the same
branch on the shifted anchor. -/
lemma resolve_tightenFace {d : ℕ} (pt : V d) (dist : ℝ) (h : Hyperplane d)
    (hn : h.n_ ≠ 0)
    (hfar : dist * vnorm h.n_ < |dot h.n_ pt - dot h.p_ h.n_|) :
    resolve pt (tightenFace pt dist h) = resolve pt h := by
  have hδ1 : dot (tightenFace pt dist h).n_ pt -
      dot (tightenFace pt dist h).p_ (tightenFace pt dist h).n_ =
      (dot h.n_ pt - dot h.p_ h.n_) + dist * dot (normalized (resolve pt h)) h.n_ := by
    rw [tightenFace_n, tightenFace_p, dot_sub_mul_left]
    ring
  by_cases hpos : 0 < dot h.n_ pt - dot h.p_ h.n_
  · have habs : |dot h.n_ pt - dot h.p_ h.n_| = dot h.n_ pt - dot h.p_ h.n_ :=
      abs_of_pos hpos
    have hm : resolve pt h = fun k => -(h.n_ k) := by
      unfold resolve
      rw [if_pos hpos]
    have hdotu : dot (normalized (resolve pt h)) h.n_ = -vnorm h.n_ := by
      rw [hm, normalized_neg, dot_comm, dot_neg_right, dot_normalized_self hn]
    have hδpos : 0 < dot (tightenFace pt dist h).n_ pt -
        dot (tightenFace pt dist h).p_ (tightenFace pt dist h).n_ := by
      rw [hδ1, hdotu]
      rw [habs] at hfar
      linarith
    unfold resolve
    rw [if_pos hδpos, if_pos hpos, tightenFace_n]
  · have habs : |dot h.n_ pt - dot h.p_ h.n_| = -(dot h.n_ pt - dot h.p_ h.n_) :=
      abs_of_nonpos (not_lt.mp hpos)
    have hm : resolve pt h = h.n_ := by
      unfold resolve
      rw [if_neg hpos]
    have hdotu : dot (normalized (resolve pt h)) h.n_ = vnorm h.n_ := by
      rw [hm, dot_comm, dot_normalized_self hn]
    have hδneg : ¬ (0 < dot (tightenFace pt dist h).n_ pt -
        dot (tightenFace pt dist h).p_ (tightenFace pt dist h).n_) := by
      rw [hδ1, hdotu]
      rw [habs] at hfar
      linarith
    unfold resolve
    rw [if_neg hδneg, if_neg hpos, tightenFace_n]

/-- Under the clearance bound, two tightenings shift the anchor by twice the
clearance along the same outward unit normal and leave the stored normal
untouched. -/
lemma tightenFace_twice {d : ℕ} (pt : V d) (dist : ℝ) (h : Hyperplane d)
    (hn : h.n_ ≠ 0)
    (hfar : dist * vnorm h.n_ < |dot h.n_ pt - dot h.p_ h.n_|) :
    tightenFace pt dist (tightenFace pt dist h) =
      { p_ := fun k => h.p_ k - 2 * dist * normalized (resolve pt h) k, n_ := h.n_ } := by
  have hr := resolve_tightenFace pt dist h hn hfar
  show Hyperplane.mk
      (fun k => (tightenFace pt dist h).p_ k -
        dist * normalized (resolve pt (tightenFace pt dist h)) k)
      (tightenFace pt dist h).n_ = _
  simp only [hr, tightenFace_n, tightenFace_p]
  congr 1
  funext k
  ring

/-! ### List and loop helpers -/

lemma getElem?_eq_nth {d : ℕ} {path : List (V d)} {m : ℕ} (h : m < path.length) :
    path[m]? = some (nth path m) := by
  rw [List.getElem?_eq_getElem h]
  unfold nth
  rw [List.getD_eq_getElem?_getD, List.getElem?_eq_getElem h]
  rfl

lemma listModify_getElem?_self {α : Type} (f : α → α) :
    ∀ (i : ℕ) (l : List α), (listModify f i l)[i]? = l[i]?.map f := by
  intro i l
  induction l generalizing i with
  | nil => simp [listModify]
  | cons x xs ih =>
    cases i with
    | zero => simp [listModify]
    | succ n => simpa [listModify] using ih n

lemma listModify_map {α β : Type} (f : α → α) (g : α → β) (hgf : ∀ x, g (f x) = g x) :
    ∀ (i : ℕ) (l : List α), (listModify f i l).map g = l.map g := by
  intro i l
  induction l generalizing i with
  | nil => simp [listModify]
  | cons x xs ih =>
    cases i with
    | zero => simp [listModify, hgf]
    | succ n => simpa [listModify] using ih n

lemma scLoop_zero_snd {d : ℕ} (path : List (V d)) (stride : ℕ) :
    ∀ (Ps : List (Polyhedron d)) (idx : ℕ) (cs : List (LinearConstraint d))
      (Ps' : List (Polyhedron d)),
      scLoop path stride 0 Ps idx = some (cs, Ps') → Ps' = Ps := by
  intro Ps
  induction Ps with
  | nil =>
    intro idx cs Ps' h
    simp only [scLoop, Option.some.injEq, Prod.mk.injEq] at h
    exact h.2.symm
  | cons P Ps ih =>
    intro idx cs Ps' h
    simp only [scLoop, Option.bind_eq_some] at h
    obtain ⟨a, ha, b, hb, ⟨cs1, Ps1⟩, hrec, heq⟩ := h
    simp only [Option.some.injEq, Prod.mk.injEq] at heq
    obtain ⟨hcs, hPs⟩ := heq
    have hPs1 := ih (idx + stride) cs1 Ps1 hrec
    subst hPs1
    rw [← hPs]
    simp

lemma scLoop_getElem? {d : ℕ} (path : List (V d)) (stride : ℕ) (dist : ℝ) :
    ∀ (Ps : List (Polyhedron d)) (idx : ℕ) (cs : List (LinearConstraint d))
      (Ps' : List (Polyhedron d)) (i : ℕ) (P : Polyhedron d),
      scLoop path stride dist Ps idx = some (cs, Ps') → Ps[i]? = some P →
      ∃ a b, path[idx + i * stride]? = some a ∧ path[idx + i * stride + 1]? = some b ∧
        cs[i]? = some (mkLinearConstraint (mid a b) P dist) ∧
        Ps'[i]? = some (if 0 < dist then tightenPoly (mid a b) dist P else P) := by
  intro Ps
  induction Ps with
  | nil => intro idx cs Ps' i P h hP; simp at hP
  | cons Q Ps ih =>
    intro idx cs Ps' i P h hP
    simp only [scLoop, Option.bind_eq_some] at h
    obtain ⟨a, ha, b, hb, ⟨cs1, Ps1⟩, hrec, heq⟩ := h
    simp only [Option.some.injEq, Prod.mk.injEq] at heq
    obtain ⟨hcs, hPs⟩ := heq
    subst hcs hPs
    cases i with
    | zero =>
      simp only [List.getElem?_cons_zero, Option.some.injEq] at hP
      subst hP
      exact ⟨a, b, by simpa using ha, by simpa using hb, by simp, by simp⟩
    | succ n =>
      simp only [List.getElem?_cons_succ] at hP
      obtain ⟨a', b', ha', hb', hcs', hPs'⟩ := ih (idx + stride) cs1 Ps1 n P hrec hP
      have harith : idx + (n + 1) * stride = idx + stride + n * stride := by ring
      refine ⟨a', b', ?_, ?_, ?_, ?_⟩
      · rw [harith]; exact ha'
      · rw [harith]; exact hb'
      · simpa using hcs'
      · simpa using hPs'

lemma gcLoop_getElem? {d : ℕ} (path : List (V d)) :
    ∀ (Ps : List (Polyhedron d)) (idx : ℕ) (cs : List (LinearConstraint d))
      (i : ℕ) (P : Polyhedron d),
      gcLoop path Ps idx = some cs → Ps[i]? = some P →
      ∃ a b, path[idx + i]? = some a ∧ path[idx + i + 1]? = some b ∧
        cs[i]? = some (mkLinearConstraint (mid a b) P 0) := by
  intro Ps
  induction Ps with
  | nil => intro idx cs i P h hP; simp at hP
  | cons Q Ps ih =>
    intro idx cs i P h hP
    simp only [gcLoop, Option.bind_eq_some] at h
    obtain ⟨a, ha, b, hb, cs1, hrec, heq⟩ := h
    simp only [Option.some.injEq] at heq
    subst heq
    cases i with
    | zero =>
      simp only [List.getElem?_cons_zero, Option.some.injEq] at hP
      subst hP
      exact ⟨a, b, by simpa using ha, by simpa using hb, by simp⟩
    | succ n =>
      simp only [List.getElem?_cons_succ] at hP
      obtain ⟨a', b', ha', hb', hcs'⟩ := ih (idx + 1) cs1 n P hrec hP
      have harith : idx + (n + 1) = idx + 1 + n := by ring
      refine ⟨a', b', ?_, ?_, ?_⟩
      · rw [harith]; exact ha'
      · rw [harith]; exact hb'
      · simpa using hcs'

lemma scLoop_map_n {d : ℕ} (path : List (V d)) (stride : ℕ) (dist : ℝ) :
    ∀ (Ps : List (Polyhedron d)) (idx : ℕ) (cs : List (LinearConstraint d))
      (Ps' : List (Polyhedron d)),
      scLoop path stride dist Ps idx = some (cs, Ps') →
      Ps'.map (List.map Hyperplane.n_) = Ps.map (List.map Hyperplane.n_) := by
  intro Ps
  induction Ps with
  | nil =>
    intro idx cs Ps' h
    simp only [scLoop, Option.some.injEq, Prod.mk.injEq] at h
    rw [← h.2]
  | cons P Ps ih =>
    intro idx cs Ps' h
    simp only [scLoop, Option.bind_eq_some] at h
    obtain ⟨a, ha, b, hb, ⟨cs1, Ps1⟩, hrec, heq⟩ := h
    simp only [Option.some.injEq, Prod.mk.injEq] at heq
    obtain ⟨hcs, hPs⟩ := heq
    subst hPs
    simp only [List.map_cons, ih (idx + stride) cs1 Ps1 hrec]
    congr 1
    split
    · unfold tightenPoly
      rw [List.map_map]
      rfl
    · rfl

lemma set_constraints_fields {d : ℕ} {E : Type} {st st' : EllipsoidDecomp d E}
    {dist : ℝ} {cs : List (LinearConstraint d)}
    (h : set_constraints st dist = some (cs, st')) :
    st'.path_ = st.path_ ∧ st'.is_path_circle_only_ = st.is_path_circle_only_ ∧
      scLoop st.path_ (strideOf st.is_path_circle_only_) dist st.polyhedrons_ 0 =
        some (cs, st'.polyhedrons_) := by
  unfold set_constraints at h
  split at h
  · rename_i cs1 Ps1 heq
    simp only [Option.some.injEq, Prod.mk.injEq] at h
    obtain ⟨hcs, hst⟩ := h
    subst hcs
    rw [← hst]
    exact ⟨rfl, rfl, heq⟩
  · cases h

lemma dilateLoop_eq {d : ℕ} {E : Type} (fit : Fitter d E) (lb : V d) (obs : List (V d))
    (off : ℝ) (path : List (V d)) (stride : ℕ) :
    ∀ (k idx : ℕ), (∀ i, i < k → idx + i * stride + 1 < path.length) →
      dilateLoop fit lb obs off path stride idx k =
        some ((List.range k).map fun i =>
          fit lb obs (nth path (idx + i * stride)) (nth path (idx + i * stride + 1)) off) := by
  intro k
  induction k with
  | zero => intro idx hlt; simp [dilateLoop]
  | succ k ih =>
    intro idx hlt
    have h1 : idx + 0 * stride + 1 < path.length := hlt 0 (Nat.succ_pos k)
    have h1' : idx + 1 < path.length := by omega
    have h0 : idx < path.length := by omega
    have hrec := ih (idx + stride) (fun i hi => by
      have hx := hlt (i + 1) (Nat.succ_lt_succ hi)
      have harith : idx + (i + 1) * stride = idx + stride + i * stride := by ring
      rw [harith] at hx
      exact hx)
    simp only [dilateLoop, getElem?_eq_nth h0, getElem?_eq_nth h1', hrec, Option.some_bind,
      Option.some.injEq]
    rw [List.range_succ_eq_map, List.map_cons, List.map_map]
    congr 1
    · simp
    · apply List.map_congr_left
      intro i hi
      have harith : idx + stride + i * stride = idx + (i + 1) * stride := by ring
      simp [Function.comp, harith]

lemma dilateLoop_nil_pos {d : ℕ} {E : Type} (fit : Fitter d E) (lb : V d)
    (obs : List (V d)) (off : ℝ) (stride : ℕ) (idx k : ℕ) (hk : 0 < k) :
    dilateLoop fit lb obs off ([] : List (V d)) stride idx k = none := by
  cases k with
  | zero => omega
  | succ n => simp [dilateLoop]

lemma vnorm_zero_vec {d : ℕ} : vnorm (0 : V d) = 0 := by
  unfold vnorm dot
  simp

/-! ### Claim theorems -/

/-- C7: for every segment count `n`, the four contiguous index ranges handed
to the worker threads — the first three of size `std::ceil(n_segments/4)`
(an integer division, so `⌊n/4⌋`), the last ending at `n_segments` — are
pairwise disjoint and their union is exactly `[0, n_segments)`, so every
segment index is dilated exactly once, with no gaps and no overlaps,
including the degenerate counts `n ∈ {0, 1, 2, 3}` where the first three
blocks are empty. -/
theorem c7_thread_partition (n : ℕ) :
    List.Pairwise
      (fun r r' : ℕ × ℕ => Disjoint (Finset.Ico r.1 r.2) (Finset.Ico r'.1 r'.2))
      (threadRanges n) ∧
    ((threadRanges n).map fun r : ℕ × ℕ => Finset.Ico r.1 r.2).foldr (· ∪ ·) ∅ =
      Finset.range n := by
  have e0 : threadRange n 0 = (0, n / 4) := rfl
  have e1 : threadRange n 1 = (0 + n / 4, n / 4 + n / 4) := rfl
  have e2 : threadRange n 2 = (0 + n / 4 + n / 4, n / 4 + n / 4 + n / 4) := rfl
  have e3 : threadRange n 3 = (0 + n / 4 + n / 4 + n / 4, n) := rfl
  have hr : threadRanges n =
      [(0, n / 4), (0 + n / 4, n / 4 + n / 4),
        (0 + n / 4 + n / 4, n / 4 + n / 4 + n / 4),
        (0 + n / 4 + n / 4 + n / 4, n)] := by
    unfold threadRanges
    rw [show List.range 4 = [0, 1, 2, 3] from rfl]
    simp only [List.map_cons, List.map_nil, e0, e1, e2, e3]
  constructor
  · rw [hr]
    refine List.Pairwise.cons ?_ (List.Pairwise.cons ?_ (List.Pairwise.cons ?_
      (List.Pairwise.cons (fun r hrm => absurd hrm (List.not_mem_nil r))
        List.Pairwise.nil))) <;>
    · intro r hrm
      simp only [List.mem_cons, List.not_mem_nil, or_false] at hrm
      rcases hrm with rfl | rfl | rfl | rfl <;>
      · rw [Finset.disjoint_left]
        intro x hx hx'
        simp only [Finset.mem_Ico] at hx hx'
        omega
  · rw [hr]
    simp only [List.map_cons, List.map_nil, List.foldr_cons, List.foldr_nil]
    ext x
    simp only [Finset.mem_union, Finset.mem_Ico, Finset.mem_range,
      Finset.not_mem_empty, or_false]
    omega

/-- C2 (evaluation of the code at the failing input): with the 3-D global
bounding box `min = (0,0,0)`, `max = (10,10,10)`, the sixth face appended by
`add_global_bbox` — the −Y face, normal `(0,-1,0)` — is anchored at
`(0, 10, 0)`, i.e. at the *max* corner's Y coordinate (source line 331),
whereas the claim requires the −Y face to be anchored at the min corner's
coordinate `(0, 0, 0)`. -/
theorem c2_bbox3d_minus_y_face :
    (bboxFaces 3 (fun _ => 0) (fun _ => 10))[5]? =
      some ⟨![0, 10, 0], ![0, -1, 0]⟩ ∧
    (![0, (10 : ℝ), 0] : V 3) ≠ ![0, 0, 0] := by
  constructor
  · rfl
  · intro hc
    have h1 := congrFun hc 1
    simp only [Matrix.cons_val_one, Matrix.head_cons] at h1
    norm_num at h1

/-- C1: for a path with at least 2 waypoints (of `unsigned int`-representable
length), `dilate` succeeds and produces exactly `len(P) - 1` segments in
sequential mode and `⌊len(P)/2⌋` segments in paired mode — an odd trailing
waypoint is dropped silently, not reported as an error — and, in path order,
ellipsoid and polyhedron `i` come from the fit of `path[i·stride]` and
`path[i·stride + 1]` (stride 1 sequential, 2 paired), each polyhedron
augmented with the global box faces exactly when the box is set. -/
theorem c1_segment_structure {d : ℕ} {E : Type} (fit : Fitter d E)
    (st : EllipsoidDecomp d E) (path : List (V d)) (off : ℝ) (mode : Bool)
    (h2 : 2 ≤ path.length) (hlen : path.length < UINT_MOD) :
    ∃ st', dilate fit st path off mode = some st' ∧
      st'.ellipsoids_.length = (if mode then path.length / 2 else path.length - 1) ∧
      st'.polyhedrons_.length = (if mode then path.length / 2 else path.length - 1) ∧
      ∀ i, i < (if mode then path.length / 2 else path.length - 1) →
        st'.ellipsoids_[i]? = some (fit st.local_bbox_ st.obs_
            (nth path (i * strideOf mode)) (nth path (i * strideOf mode + 1)) off).1 ∧
        st'.polyhedrons_[i]? = some
          (if vnorm st.global_bbox_min_ ≠ 0 ∨ vnorm st.global_bbox_max_ ≠ 0 then
            add_global_bbox st.global_bbox_min_ st.global_bbox_max_
              (fit st.local_bbox_ st.obs_ (nth path (i * strideOf mode))
                (nth path (i * strideOf mode + 1)) off).2
          else (fit st.local_bbox_ st.obs_ (nth path (i * strideOf mode))
                (nth path (i * strideOf mode + 1)) off).2) := by
  set n : ℕ := if mode then path.length / 2 else path.length - 1 with hn
  have hnseg : n_segments_of (path.length % UINT_MOD) mode = n := by
    unfold n_segments_of UINT_MOD
    unfold UINT_MOD at hlen
    cases mode <;> simp only [Bool.false_eq_true, if_false, if_true, hn] <;> omega
  have hcov : ∀ i, i < n → 0 + i * strideOf mode + 1 < path.length := by
    intro i hi
    unfold strideOf
    rw [hn] at hi
    cases mode <;> simp only [Bool.false_eq_true, if_false, if_true] at hi ⊢ <;> omega
  have hloop := dilateLoop_eq fit st.local_bbox_ st.obs_ off path (strideOf mode) n 0 hcov
  simp only [dilate, hnseg, hloop]
  refine ⟨_, rfl, ?_, ?_, ?_⟩
  · simp
  · split <;> simp
  · intro i hi
    constructor
    · simp [List.getElem?_map, List.getElem?_range hi]
    · split <;> simp [List.getElem?_map, List.getElem?_range hi]

/-- Witness for C1: a concrete 2-point sequential path satisfies the
hypotheses, and `dilate` produces exactly one segment joining the two
points. -/
theorem c1_segment_structure_witness :
    2 ≤ ([fun _ => 0, fun _ => 1] : List (V 2)).length ∧
    ([fun _ => 0, fun _ => 1] : List (V 2)).length < UINT_MOD ∧
    (∃ st', dilate fitW stW ([fun _ => 0, fun _ => 1] : List (V 2)) 0 false = some st' ∧
      st'.ellipsoids_.length =
        (if false then ([fun _ => 0, fun _ => 1] : List (V 2)).length / 2
          else ([fun _ => 0, fun _ => 1] : List (V 2)).length - 1) ∧
      st'.polyhedrons_.length =
        (if false then ([fun _ => 0, fun _ => 1] : List (V 2)).length / 2
          else ([fun _ => 0, fun _ => 1] : List (V 2)).length - 1) ∧
      ∀ i, i < (if false then ([fun _ => 0, fun _ => 1] : List (V 2)).length / 2
          else ([fun _ => 0, fun _ => 1] : List (V 2)).length - 1) →
        st'.ellipsoids_[i]? = some (fitW stW.local_bbox_ stW.obs_
            (nth ([fun _ => 0, fun _ => 1] : List (V 2)) (i * strideOf false))
            (nth ([fun _ => 0, fun _ => 1] : List (V 2)) (i * strideOf false + 1)) 0).1 ∧
        st'.polyhedrons_[i]? = some
          (if vnorm stW.global_bbox_min_ ≠ 0 ∨ vnorm stW.global_bbox_max_ ≠ 0 then
            add_global_bbox stW.global_bbox_min_ stW.global_bbox_max_
              (fitW stW.local_bbox_ stW.obs_
                (nth ([fun _ => 0, fun _ => 1] : List (V 2)) (i * strideOf false))
                (nth ([fun _ => 0, fun _ => 1] : List (V 2)) (i * strideOf false + 1)) 0).2
          else (fitW stW.local_bbox_ stW.obs_
                (nth ([fun _ => 0, fun _ => 1] : List (V 2)) (i * strideOf false))
                (nth ([fun _ => 0, fun _ => 1] : List (V 2)) (i * strideOf false + 1)) 0).2)) :=
  ⟨by norm_num, by norm_num [UINT_MOD],
    c1_segment_structure fitW stW _ 0 false (by norm_num) (by norm_num [UINT_MOD])⟩


/-- C4 amended: `dilate` performs no path-length precondition check.  A
1-point path does not fail: it silently succeeds with 0 segments in both
modes; an empty path in paired mode also succeeds with 0 segments; an empty
path in sequential mode underflows the `unsigned int` segment count to
`2^32 - 1` and reads the path out of bounds (modelled as `none`), which is
undefined behaviour, not a synchronous precondition failure. -/
theorem c4_no_length_check :
    (∀ (d : ℕ) (E : Type) (fit : Fitter d E) (st : EllipsoidDecomp d E) (p : V d)
        (off : ℝ) (mode : Bool),
      ∃ st', dilate fit st [p] off mode = some st' ∧
        st'.ellipsoids_ = [] ∧ st'.polyhedrons_ = []) ∧
    (∀ (d : ℕ) (E : Type) (fit : Fitter d E) (st : EllipsoidDecomp d E) (off : ℝ),
      dilate fit st ([] : List (V d)) off false = none) ∧
    (∀ (d : ℕ) (E : Type) (fit : Fitter d E) (st : EllipsoidDecomp d E) (off : ℝ),
      ∃ st', dilate fit st ([] : List (V d)) off true = some st' ∧
        st'.ellipsoids_ = [] ∧ st'.polyhedrons_ = []) := by
  refine ⟨?_, ?_, ?_⟩
  · intro d E fit st p off mode
    have h1 : n_segments_of ([p].length % UINT_MOD) mode = 0 := by
      unfold n_segments_of UINT_MOD
      cases mode <;> norm_num
    simp only [dilate, h1, dilateLoop, Option.some.injEq]
    exact ⟨_, rfl, by simp, by split <;> simp⟩
  · intro d E fit st off
    have hpos : 0 < n_segments_of ((([] : List (V d)).length) % UINT_MOD) false := by
      unfold n_segments_of UINT_MOD
      norm_num
    have hnone := dilateLoop_nil_pos fit st.local_bbox_ st.obs_ off (strideOf false) 0 _ hpos
    rw [dilate, hnone]
  · intro d E fit st off
    have h1 : n_segments_of ((([] : List (V d)).length) % UINT_MOD) true = 0 := by
      unfold n_segments_of UINT_MOD
      norm_num
    simp only [dilate, h1, dilateLoop, Option.some.injEq]
    exact ⟨_, rfl, by simp, by split <;> simp⟩

/-- Counterexample to C4 as stated: on the concrete 1-point path `[(0,0)]`
(fewer than 2 points), `dilate` does not fail — it returns a result state
with an empty corridor instead of reporting a precondition violation. -/
theorem c4_counterexample :
    dilate fitW stW [(fun _ => 0 : V 2)] 0 false ≠ none ∧
    (dilate fitW stW [(fun _ => 0 : V 2)] 0 false).map
      (fun s => s.polyhedrons_.length) = some 0 := by
  have h1 : n_segments_of ([(fun _ => 0 : V 2)].length % UINT_MOD) false = 0 := by
    unfold n_segments_of UINT_MOD
    norm_num
  simp only [dilate, h1, dilateLoop]
  constructor
  · simp
  · simp

lemma dot_normalized_left {d : ℕ} (v a : V d) :
    dot (normalized v) a = dot v a / vnorm v := by
  rw [dot_comm, dot_normalized_right, dot_comm]

lemma set_constraints_shape {d : ℕ} {E : Type} {st st' : EllipsoidDecomp d E}
    {dist : ℝ} {cs : List (LinearConstraint d)}
    (h : set_constraints st dist = some (cs, st')) :
    st' = { st with polyhedrons_ := st'.polyhedrons_ } := by
  unfold set_constraints at h
  split at h
  · rename_i cs1 Ps1 heq
    simp only [Option.some.injEq, Prod.mk.injEq] at h
    obtain ⟨hcs, hst⟩ := h
    rw [← hst]
  · cases h

/-- C5: `tighten_polyhedron(i, pt_inside, d)` applies to face `j` of
polyhedron `i` exactly the claimed step: the stored normal `n` is flipped
iff `n·pt_inside − n·p > 0` (this is `resolve`), the (possibly flipped) copy
is normalized — of unit length whenever `n ≠ 0` — the resulting unit vector
points away from the interior point (outward), and the anchor is replaced
by `p − d·u` along it; the face count is preserved. -/
theorem c5_tighten_step {d : ℕ} {E : Type} (st : EllipsoidDecomp d E) (i j : ℕ)
    (pt : V d) (dist : ℝ) (P : Polyhedron d) (h : Hyperplane d)
    (hP : st.polyhedrons_[i]? = some P) (hj : P[j]? = some h) :
    ∃ P', (tighten_polyhedron st i pt dist).polyhedrons_[i]? = some P' ∧
      P'.length = P.length ∧
      P'[j]? = some
        { p_ := fun k => h.p_ k - dist * normalized (resolve pt h) k, n_ := h.n_ } ∧
      (h.n_ ≠ 0 → vnorm (normalized (resolve pt h)) = 1) ∧
      (h.n_ ≠ 0 →
        dot (normalized (resolve pt h)) pt - dot (normalized (resolve pt h)) h.p_ ≤ 0) := by
  refine ⟨tightenPoly pt dist P, ?_, ?_, ?_, ?_, ?_⟩
  · unfold tighten_polyhedron
    rw [listModify_getElem?_self, hP]
    rfl
  · unfold tightenPoly
    simp
  · unfold tightenPoly
    rw [List.getElem?_map, hj]
    rfl
  · intro hn
    exact vnorm_normalized (resolve_n_ne_zero pt hn)
  · intro hn
    rw [dot_normalized_left, dot_normalized_left, div_sub_div_same, resolve_spec]
    apply div_nonpos_of_nonpos_of_nonneg
    · exact neg_nonpos_of_nonneg (abs_nonneg _)
    · exact le_of_lt (vnorm_pos (resolve_n_ne_zero pt hn))

/-- Witness for C5 at polyhedron 0, face 0 of `st5`, interior point `(0,0)`,
clearance 1. -/
theorem c5_tighten_step_witness :
    st5.polyhedrons_[0]? = some [⟨![0, 1], ![0, 3]⟩] ∧
    ([⟨![0, 1], ![0, 3]⟩] : Polyhedron 2)[0]? = some ⟨![0, 1], ![0, 3]⟩ ∧
    (∃ P', (tighten_polyhedron st5 0 ![0, 0] 1).polyhedrons_[0]? = some P' ∧
      P'.length = ([⟨![0, 1], ![0, 3]⟩] : Polyhedron 2).length ∧
      P'[0]? = some
        { p_ := fun k => (![0, 1] : V 2) k -
            1 * normalized (resolve ![0, 0] ⟨![0, 1], ![0, 3]⟩) k,
          n_ := (![0, 3] : V 2) } ∧
      ((![0, 3] : V 2) ≠ 0 →
        vnorm (normalized (resolve ![0, 0] (⟨![0, 1], ![0, 3]⟩ : Hyperplane 2))) = 1) ∧
      ((![0, 3] : V 2) ≠ 0 →
        dot (normalized (resolve ![0, 0] (⟨![0, 1], ![0, 3]⟩ : Hyperplane 2))) ![0, 0] -
          dot (normalized (resolve ![0, 0] (⟨![0, 1], ![0, 3]⟩ : Hyperplane 2))) ![0, 1]
            ≤ 0)) :=
  ⟨rfl, rfl, c5_tighten_step st5 0 0 ![0, 0] 1 [⟨![0, 1], ![0, 3]⟩] ⟨![0, 1], ![0, 3]⟩ rfl rfl⟩

/-- C10: tightening mutates only anchors.  The stored normal `n_` of every
face of every polyhedron is left exactly unchanged by `tighten_polyhedron`
(the sign flip and the normalization act on a local copy of the normal) and
hence by `set_constraints` with any clearance; in particular a stored normal
keeps its exact direction — one that pointed inward still points inward —
and stored normals are never unit-normalized in place. -/
theorem c10_normals_preserved {d : ℕ} {E : Type} (st st₂ : EllipsoidDecomp d E)
    (i : ℕ) (pt : V d) (dist dist' : ℝ) (cs : List (LinearConstraint d))
    (hsc : set_constraints st dist' = some (cs, st₂)) :
    (tighten_polyhedron st i pt dist).polyhedrons_.map (List.map Hyperplane.n_) =
      st.polyhedrons_.map (List.map Hyperplane.n_) ∧
    st₂.polyhedrons_.map (List.map Hyperplane.n_) =
      st.polyhedrons_.map (List.map Hyperplane.n_) := by
  constructor
  · unfold tighten_polyhedron
    apply listModify_map
    intro x
    unfold tightenPoly
    rw [List.map_map]
    rfl
  · exact scLoop_map_n st.path_ (strideOf st.is_path_circle_only_) dist'
      st.polyhedrons_ 0 cs st₂.polyhedrons_ (set_constraints_fields hsc).2.2

/-- C9: extraction with clearance 0 mutates nothing — the state after
`set_constraints(·, 0)` is the original state — and calling it again
without an intervening decomposition returns the identical constraint
systems. -/
theorem c9_zero_clearance_idempotent {d : ℕ} {E : Type} (st st' : EllipsoidDecomp d E)
    (cs : List (LinearConstraint d))
    (h : set_constraints st 0 = some (cs, st')) :
    st' = st ∧ set_constraints st' 0 = some (cs, st') := by
  have hshape := set_constraints_shape h
  have hPs : st'.polyhedrons_ = st.polyhedrons_ :=
    scLoop_zero_snd st.path_ (strideOf st.is_path_circle_only_) st.polyhedrons_ 0 cs
      st'.polyhedrons_ (set_constraints_fields h).2.2
  have hst : st' = st := by
    rw [hPs] at hshape
    exact hshape
  subst hst
  exact ⟨rfl, h⟩

lemma set_constraints_stW10 : set_constraints stW10 0 = some (csW10, stW10) := by
  have hres : resolve (mid ![0, 0] ![2, 0]) (⟨![1, 0], ![1, 0]⟩ : Hyperplane 2) =
      ![1, 0] := by
    unfold resolve
    rw [if_neg]
    norm_num [dot, mid, Fin.sum_univ_two, Matrix.cons_val_zero, Matrix.cons_val_one,
      Matrix.head_cons]
  have hmk : mkLinearConstraint (mid ![0, 0] ![2, 0]) [⟨![1, 0], ![1, 0]⟩] 0 =
      { A := [![1, 0]], b := [1], pt := mid ![0, 0] ![2, 0] } := by
    unfold mkLinearConstraint
    simp only [List.map_cons, List.map_nil, hres]
    have hb : dot (![1, 0] : V 2) (![1, 0] : V 2) - 0 * vnorm (![1, 0] : V 2) = 1 := by
      norm_num [dot, Fin.sum_univ_two, Matrix.cons_val_zero, Matrix.cons_val_one,
        Matrix.head_cons]
    rw [hb]
  have hloop : scLoop stW10.path_ (strideOf stW10.is_path_circle_only_) 0
      stW10.polyhedrons_ 0 = some (csW10, stW10.polyhedrons_) := by
    show scLoop [![0, 0], ![2, 0]] (strideOf false) 0 [[⟨![1, 0], ![1, 0]⟩]] 0 = _
    simp only [scLoop, strideOf, List.getElem?_cons_zero, List.getElem?_cons_succ,
      Option.some_bind, hmk]
    norm_num [csW10]
    rfl
  unfold set_constraints
  rw [hloop]

/-- Witness for C9: the hypothesis holds at `stW10` with clearance 0, the
state is unchanged and the repeat call returns the identical constraints. -/
theorem c9_zero_clearance_idempotent_witness :
    set_constraints stW10 0 = some (csW10, stW10) ∧
    (stW10 = stW10 ∧ set_constraints stW10 0 = some (csW10, stW10)) :=
  ⟨set_constraints_stW10,
    c9_zero_clearance_idempotent stW10 stW10 csW10 set_constraints_stW10⟩

/-- Witness for C10 at `stW10`: tightening polyhedron 0 with clearance 1
keeps every stored normal, and so does constraint extraction. -/
theorem c10_normals_preserved_witness :
    set_constraints stW10 0 = some (csW10, stW10) ∧
    ((tighten_polyhedron stW10 0 ![0, 0] 1).polyhedrons_.map (List.map Hyperplane.n_) =
        stW10.polyhedrons_.map (List.map Hyperplane.n_) ∧
      stW10.polyhedrons_.map (List.map Hyperplane.n_) =
        stW10.polyhedrons_.map (List.map Hyperplane.n_)) :=
  ⟨set_constraints_stW10,
    c10_normals_preserved stW10 stW10 0 ![0, 0] 1 0 csW10 set_constraints_stW10⟩

/-- C6 amended: after tightening, the interior point lies strictly on the
negative side of every face *with respect to the outward-resolved normal*
`m = resolve pt h` (the stored normal, sign-flipped exactly when the
interior point lies on its positive side), provided the face normal is
nonzero and the clearance keeps the point clear of the face:
`d·‖n‖ < |n·pt − n·p|`.  With the stored normal in place of `m` the
inequality fails in general, because stored normals may point inward and
are never flipped in place. -/
theorem c6_sign_consistency {d : ℕ} {E : Type} (st : EllipsoidDecomp d E)
    (i j : ℕ) (pt : V d) (dist : ℝ) (P : Polyhedron d) (h : Hyperplane d)
    (hP : st.polyhedrons_[i]? = some P) (hj : P[j]? = some h)
    (hn : h.n_ ≠ 0)
    (hfar : dist * vnorm h.n_ < |dot h.n_ pt - dot h.p_ h.n_|) :
    ∃ P', (tighten_polyhedron st i pt dist).polyhedrons_[i]? = some P' ∧
      P'[j]? = some (tightenFace pt dist h) ∧
      dot (resolve pt h) pt - dot (resolve pt h) (tightenFace pt dist h).p_ < 0 := by
  refine ⟨tightenPoly pt dist P, ?_, ?_, ?_⟩
  · unfold tighten_polyhedron
    rw [listModify_getElem?_self, hP]
    rfl
  · unfold tightenPoly
    rw [List.getElem?_map, hj]
    rfl
  · rw [resolve_dot_tightenFace pt dist h hn]
    linarith

/-- Witness for C6 at `st6w`, interior point `(0,0)`, clearance `1/4`
(strictly smaller than the distance 1 from the point to the face). -/
theorem c6_sign_consistency_witness :
    st6w.polyhedrons_[0]? = some [⟨![1, 0], ![2, 0]⟩] ∧
    ([⟨![1, 0], ![2, 0]⟩] : Polyhedron 2)[0]? = some ⟨![1, 0], ![2, 0]⟩ ∧
    (![2, 0] : V 2) ≠ 0 ∧
    (1 / 4 : ℝ) * vnorm (![2, 0] : V 2) <
      |dot (![2, 0] : V 2) ![0, 0] - dot (![1, 0] : V 2) ![2, 0]| ∧
    (∃ P', (tighten_polyhedron st6w 0 ![0, 0] (1 / 4)).polyhedrons_[0]? = some P' ∧
      P'[0]? = some (tightenFace ![0, 0] (1 / 4) ⟨![1, 0], ![2, 0]⟩) ∧
      dot (resolve ![0, 0] (⟨![1, 0], ![2, 0]⟩ : Hyperplane 2)) ![0, 0] -
        dot (resolve ![0, 0] (⟨![1, 0], ![2, 0]⟩ : Hyperplane 2))
          (tightenFace ![0, 0] (1 / 4) (⟨![1, 0], ![2, 0]⟩ : Hyperplane 2)).p_ < 0) := by
  have hsqrt4 : Real.sqrt 4 = 2 := by
    rw [show (4 : ℝ) = 2 ^ 2 by norm_num]
    exact Real.sqrt_sq (by norm_num)
  have hn : (![2, 0] : V 2) ≠ 0 := by
    intro hc
    have h0 := congrFun hc 0
    norm_num [Matrix.cons_val_zero] at h0
  have hfar : (1 / 4 : ℝ) * vnorm (![2, 0] : V 2) <
      |dot (![2, 0] : V 2) ![0, 0] - dot (![1, 0] : V 2) ![2, 0]| := by
    have hv : vnorm (![2, 0] : V 2) = 2 := by
      unfold vnorm
      norm_num [dot, Fin.sum_univ_two, Matrix.cons_val_zero, Matrix.cons_val_one,
        Matrix.head_cons, hsqrt4]
    rw [hv]
    norm_num [dot, Fin.sum_univ_two, Matrix.cons_val_zero, Matrix.cons_val_one,
      Matrix.head_cons]
  exact ⟨rfl, rfl, hn, hfar,
    c6_sign_consistency st6w 0 0 ![0, 0] (1 / 4) [⟨![1, 0], ![2, 0]⟩]
      ⟨![1, 0], ![2, 0]⟩ rfl rfl hn hfar⟩

lemma normalized_e1 : normalized (![1, 0] : V 2) = ![1, 0] := by
  unfold normalized vnorm
  have hd : dot (![1, 0] : V 2) ![1, 0] = 1 := by
    norm_num [dot, Fin.sum_univ_two, Matrix.cons_val_zero, Matrix.cons_val_one,
      Matrix.head_cons]
  rw [hd, Real.sqrt_one]
  funext k
  fin_cases k <;> norm_num

/-- Counterexample to C6 as stated: tightening `st6c`'s single face (stored
normal `(-1,0)`, pointing towards the interior point `(0,0)`) with clearance
`1/2` yields anchor `(1/2, 0)`, and with the face's *stored* normal `n` the
claimed inequality `n·pt − n·p < 0` is false: the value is `1/2 > 0`. -/
theorem c6_counterexample :
    (tighten_polyhedron st6c 0 ![0, 0] (1 / 2)).polyhedrons_ =
      [[⟨![1 / 2, 0], ![-1, 0]⟩]] ∧
    ¬ (dot (![(-1 : ℝ), 0]) (![0, 0] : V 2) -
        dot (![(-1 : ℝ), 0] : V 2) ![1 / 2, 0] < 0) := by
  have hres : resolve ![0, 0] (⟨![1, 0], ![-1, 0]⟩ : Hyperplane 2) = ![1, 0] := by
    unfold resolve
    rw [if_pos]
    · funext k
      fin_cases k <;> norm_num [Matrix.cons_val_zero, Matrix.cons_val_one, Matrix.head_cons]
    · norm_num [dot, Fin.sum_univ_two, Matrix.cons_val_zero, Matrix.cons_val_one,
        Matrix.head_cons]
  have hface : tightenFace ![0, 0] (1 / 2) (⟨![1, 0], ![-1, 0]⟩ : Hyperplane 2) =
      ⟨![1 / 2, 0], ![-1, 0]⟩ := by
    show Hyperplane.mk
      (fun k => (![1, 0] : V 2) k -
        (1 / 2) * normalized (resolve ![0, 0] (⟨![1, 0], ![-1, 0]⟩ : Hyperplane 2)) k)
      ![-1, 0] = _
    rw [hres, normalized_e1]
    congr 1
    funext k
    fin_cases k <;> norm_num [Matrix.cons_val_zero, Matrix.cons_val_one, Matrix.head_cons]
  constructor
  · show listModify (tightenPoly ![0, 0] (1 / 2)) 0 [[⟨![1, 0], ![-1, 0]⟩]] = _
    simp only [listModify, tightenPoly, List.map_cons, List.map_nil, hface]
  · norm_num [dot, Fin.sum_univ_two, Matrix.cons_val_zero, Matrix.cons_val_one,
      Matrix.head_cons]

/-- C3 corrected: `set_constraints` uses as interior point of polyhedron `i`
the midpoint of its originating segment — the path cursor advances by 1 per
polyhedron in sequential mode and by 2 in paired mode — but the no-argument
`get_constraints` always uses `(path_[i] + path_[i+1]) / 2`, advancing by 1
whatever the mode, which in paired mode is not the originating segment's
midpoint. -/
theorem c3_interior_points {d : ℕ} {E : Type} (st : EllipsoidDecomp d E)
    (dist : ℝ) (cs cs' : List (LinearConstraint d))
    (st₂ : EllipsoidDecomp d E) (i j : ℕ) (P Q : Polyhedron d)
    (hsc : set_constraints st dist = some (cs, st₂))
    (hgc : get_constraints st = some cs')
    (hP : st.polyhedrons_[i]? = some P)
    (hQ : st.polyhedrons_[j]? = some Q) :
    (∃ a b, st.path_[i * strideOf st.is_path_circle_only_]? = some a ∧
      st.path_[i * strideOf st.is_path_circle_only_ + 1]? = some b ∧
      cs[i]? = some (mkLinearConstraint (mid a b) P dist)) ∧
    (∃ a b, st.path_[j]? = some a ∧ st.path_[j + 1]? = some b ∧
      cs'[j]? = some (mkLinearConstraint (mid a b) Q 0)) := by
  constructor
  · obtain ⟨a, b, ha, hb, hcs, hPs⟩ := scLoop_getElem? st.path_
      (strideOf st.is_path_circle_only_) dist st.polyhedrons_ 0 cs st₂.polyhedrons_
      i P (set_constraints_fields hsc).2.2 hP
    exact ⟨a, b, by simpa using ha, by simpa using hb, hcs⟩
  · obtain ⟨a, b, ha, hb, hcs⟩ := gcLoop_getElem? st.path_ st.polyhedrons_ 0 cs' j Q hgc hQ
    exact ⟨a, b, by simpa using ha, by simpa using hb, hcs⟩

lemma set_constraints_stC3 : set_constraints stC3 0 = some (csC3s, stC3) := by
  have ha0 : ([![0, 0], ![2, 0], ![10, 0], ![12, 0]] : List (V 2))[(0 : ℕ)]? =
      some ![0, 0] := rfl
  have ha1 : ([![0, 0], ![2, 0], ![10, 0], ![12, 0]] : List (V 2))[0 + 1]? =
      some ![2, 0] := rfl
  have ha2 : ([![0, 0], ![2, 0], ![10, 0], ![12, 0]] : List (V 2))[0 + 2]? =
      some ![10, 0] := rfl
  have ha3 : ([![0, 0], ![2, 0], ![10, 0], ![12, 0]] : List (V 2))[0 + 2 + 1]? =
      some ![12, 0] := rfl
  have hloop : scLoop stC3.path_ (strideOf stC3.is_path_circle_only_) 0
      stC3.polyhedrons_ 0 = some (csC3s, stC3.polyhedrons_) := by
    show scLoop [![0, 0], ![2, 0], ![10, 0], ![12, 0]] (strideOf true) 0 [[], []] 0 = _
    simp only [scLoop, strideOf, if_true, ha0, ha1, ha2, ha3, Option.some_bind]
    norm_num [csC3s]
    rfl
  unfold set_constraints
  rw [hloop]

lemma get_constraints_stC3 : get_constraints stC3 = some csC3g := by
  have hb0 : ([![0, 0], ![2, 0], ![10, 0], ![12, 0]] : List (V 2))[(0 : ℕ)]? =
      some ![0, 0] := rfl
  have hb1 : ([![0, 0], ![2, 0], ![10, 0], ![12, 0]] : List (V 2))[0 + 1]? =
      some ![2, 0] := rfl
  have hb2 : ([![0, 0], ![2, 0], ![10, 0], ![12, 0]] : List (V 2))[0 + 1 + 1]? =
      some ![10, 0] := rfl
  show gcLoop [![0, 0], ![2, 0], ![10, 0], ![12, 0]] [[], []] 0 = some csC3g
  simp only [gcLoop, hb0, hb1, hb2, Option.some_bind]
  rfl

/-- Witness for C3 (amended) at `stC3`, polyhedron index 1: `set_constraints`
pairs it with `path[2]–path[3]`, `get_constraints` with `path[1]–path[2]`. -/
theorem c3_interior_points_witness :
    set_constraints stC3 0 = some (csC3s, stC3) ∧
    get_constraints stC3 = some csC3g ∧
    stC3.polyhedrons_[1]? = some [] ∧
    ((∃ a b, stC3.path_[1 * strideOf stC3.is_path_circle_only_]? = some a ∧
      stC3.path_[1 * strideOf stC3.is_path_circle_only_ + 1]? = some b ∧
      csC3s[1]? = some (mkLinearConstraint (mid a b) [] 0)) ∧
    (∃ a b, stC3.path_[1]? = some a ∧ stC3.path_[1 + 1]? = some b ∧
      csC3g[1]? = some (mkLinearConstraint (mid a b) [] 0))) :=
  ⟨set_constraints_stC3, get_constraints_stC3, rfl,
    c3_interior_points stC3 0 csC3s csC3g stC3 1 1 [] []
      set_constraints_stC3 get_constraints_stC3 rfl rfl⟩

/-- Counterexample to C3 as stated: on the paired-mode state `stC3` the
no-argument `get_constraints` gives polyhedron 1 the interior point
`(path[1] + path[2])/2 = (6,0)`, not the originating segment's midpoint
`(path[2] + path[3])/2 = (11,0)` that the claim requires. -/
theorem c3_counterexample :
    (get_constraints stC3).map (List.map LinearConstraint.pt) =
      some [mid ![0, 0] ![2, 0], mid ![2, 0] ![10, 0]] ∧
    stC3.is_path_circle_only_ = true ∧
    mid (![2, 0] : V 2) ![10, 0] ≠ mid (![10, 0] : V 2) ![12, 0] := by
  refine ⟨?_, rfl, ?_⟩
  · have hb0 : ([![0, 0], ![2, 0], ![10, 0], ![12, 0]] : List (V 2))[(0 : ℕ)]? =
        some ![0, 0] := rfl
    have hb1 : ([![0, 0], ![2, 0], ![10, 0], ![12, 0]] : List (V 2))[0 + 1]? =
        some ![2, 0] := rfl
    have hb2 : ([![0, 0], ![2, 0], ![10, 0], ![12, 0]] : List (V 2))[0 + 1 + 1]? =
        some ![10, 0] := rfl
    show ((gcLoop [![0, 0], ![2, 0], ![10, 0], ![12, 0]] [[], []] 0).map
      (List.map LinearConstraint.pt)) = _
    simp only [gcLoop, hb0, hb1, hb2, Option.some_bind]
    rfl
  · intro hc
    have h0 := congrFun hc 0
    norm_num [mid, Matrix.cons_val_zero] at h0

/-- C8 amended: two `set_constraints` calls with the same clearance `d > 0`
and no intervening decomposition shift every face anchor by a total of `2d`
inward along the resolved outward unit normal — the operation is not
idempotent for `d > 0` — provided the face normal is nonzero and the
interior point is farther than `d` from the face
(`d·‖n‖ < |n·pt − n·p|`); without that proviso the second tightening can
flip the face back outward instead (see the counterexample). -/
theorem c8_double_tighten {d : ℕ} {E : Type} (st st₁ st₂ : EllipsoidDecomp d E)
    (dist : ℝ) (cs₁ cs₂ : List (LinearConstraint d)) (i j : ℕ)
    (P : Polyhedron d) (h : Hyperplane d) (a b : V d)
    (hd : 0 < dist)
    (h1 : set_constraints st dist = some (cs₁, st₁))
    (h2 : set_constraints st₁ dist = some (cs₂, st₂))
    (hP : st.polyhedrons_[i]? = some P)
    (hj : P[j]? = some h)
    (ha : st.path_[i * strideOf st.is_path_circle_only_]? = some a)
    (hb : st.path_[i * strideOf st.is_path_circle_only_ + 1]? = some b)
    (hn : h.n_ ≠ 0)
    (hfar : dist * vnorm h.n_ < |dot h.n_ (mid a b) - dot h.p_ h.n_|) :
    ∃ P₂, st₂.polyhedrons_[i]? = some P₂ ∧
      P₂[j]? = some
        { p_ := fun k => h.p_ k - 2 * dist * normalized (resolve (mid a b) h) k,
          n_ := h.n_ } := by
  obtain ⟨a', b', ha', hb', hcs1, hPs1⟩ := scLoop_getElem? st.path_
    (strideOf st.is_path_circle_only_) dist st.polyhedrons_ 0 cs₁ st₁.polyhedrons_
    i P (set_constraints_fields h1).2.2 hP
  rw [Nat.zero_add] at ha' hb'
  rw [ha'] at ha
  rw [hb'] at hb
  have haa : a' = a := Option.some.inj ha
  have hbb : b' = b := Option.some.inj hb
  rw [haa, hbb, if_pos hd] at hPs1
  have hs1 := set_constraints_shape h1
  have hloop2 : scLoop st.path_ (strideOf st.is_path_circle_only_) dist
      st₁.polyhedrons_ 0 = some (cs₂, st₂.polyhedrons_) := by
    have hfields := (set_constraints_fields h2).2.2
    rw [hs1] at hfields
    exact hfields
  obtain ⟨a₂, b₂, ha₂, hb₂, hcs2, hPs2⟩ := scLoop_getElem? st.path_
    (strideOf st.is_path_circle_only_) dist st₁.polyhedrons_ 0 cs₂ st₂.polyhedrons_
    i (tightenPoly (mid a b) dist P) hloop2 hPs1
  rw [Nat.zero_add] at ha₂ hb₂
  rw [ha'] at ha₂
  rw [hb'] at hb₂
  have h2a : a₂ = a := (Option.some.inj ha₂).symm.trans haa
  have h2b : b₂ = b := (Option.some.inj hb₂).symm.trans hbb
  rw [h2a, h2b, if_pos hd] at hPs2
  refine ⟨tightenPoly (mid a b) dist (tightenPoly (mid a b) dist P), hPs2, ?_⟩
  unfold tightenPoly
  rw [List.getElem?_map, List.getElem?_map, hj]
  show some (tightenFace (mid a b) dist (tightenFace (mid a b) dist h)) = _
  rw [tightenFace_twice (mid a b) dist h hn hfar]

lemma vnorm_e1 : vnorm (![1, 0] : V 2) = 1 := by
  unfold vnorm
  have hd : dot (![1, 0] : V 2) ![1, 0] = 1 := by
    norm_num [dot, Fin.sum_univ_two, Matrix.cons_val_zero, Matrix.cons_val_one,
      Matrix.head_cons]
  rw [hd, Real.sqrt_one]

/-- Evaluation of one `set_constraints` call on a one-polyhedron state with
the degenerate path of `stC8`, keeping the polyhedron symbolic. -/
lemma set_constraints_single (st : EllipsoidDecomp 2 Unit) (P : Polyhedron 2)
    (dist : ℝ) (hd : 0 < dist)
    (hpath : st.path_ = [![0, 0], ![0, 0]])
    (hmode : st.is_path_circle_only_ = false)
    (hpolys : st.polyhedrons_ = [P]) :
    set_constraints st dist =
      some ([mkLinearConstraint (mid ![0, 0] ![0, 0]) P dist],
        { st with polyhedrons_ := [tightenPoly (mid ![0, 0] ![0, 0]) dist P] }) := by
  have h0 : ([![0, 0], ![0, 0]] : List (V 2))[(0 : ℕ)]? = some ![0, 0] := rfl
  have h1 : ([![0, 0], ![0, 0]] : List (V 2))[0 + 1]? = some ![0, 0] := rfl
  have hloop : scLoop st.path_ (strideOf st.is_path_circle_only_) dist
      st.polyhedrons_ 0 =
      some ([mkLinearConstraint (mid ![0, 0] ![0, 0]) P dist],
        [tightenPoly (mid ![0, 0] ![0, 0]) dist P]) := by
    rw [hpath, hmode, hpolys]
    show scLoop [![0, 0], ![0, 0]] 1 dist [P] 0 = _
    simp only [scLoop, h0, h1, Option.some_bind, if_pos hd]
  unfold set_constraints
  rw [hloop]

/-- Witness for C8 (amended) at `stC8` with clearance `1/4 < 1`: after the
two calls, face 0 of polyhedron 0 sits at `p − 2·(1/4)·u`. -/
theorem c8_double_tighten_witness :
    (0 : ℝ) < 1 / 4 ∧
    set_constraints stC8 (1 / 4) = some (csW8a, stC8b) ∧
    set_constraints stC8b (1 / 4) = some (csW8b, stC8c) ∧
    stC8.polyhedrons_[0]? = some [⟨![1, 0], ![1, 0]⟩] ∧
    ([⟨![1, 0], ![1, 0]⟩] : Polyhedron 2)[0]? = some ⟨![1, 0], ![1, 0]⟩ ∧
    stC8.path_[0 * strideOf stC8.is_path_circle_only_]? = some ![0, 0] ∧
    stC8.path_[0 * strideOf stC8.is_path_circle_only_ + 1]? = some ![0, 0] ∧
    (![1, 0] : V 2) ≠ 0 ∧
    (1 / 4 : ℝ) * vnorm (![1, 0] : V 2) <
      |dot (![1, 0] : V 2) (mid ![0, 0] ![0, 0]) - dot (![1, 0] : V 2) ![1, 0]| ∧
    (∃ P₂, stC8c.polyhedrons_[0]? = some P₂ ∧
      P₂[0]? = some
        { p_ := fun k => (![1, 0] : V 2) k -
            2 * (1 / 4) *
              normalized (resolve (mid ![0, 0] ![0, 0]) ⟨![1, 0], ![1, 0]⟩) k,
          n_ := (![1, 0] : V 2) }) := by
  have e1 : set_constraints stC8 (1 / 4) = some (csW8a, stC8b) :=
    set_constraints_single stC8 [⟨![1, 0], ![1, 0]⟩] (1 / 4) (by norm_num) rfl rfl rfl
  have e2 : set_constraints stC8b (1 / 4) = some (csW8b, stC8c) :=
    set_constraints_single stC8b
      (tightenPoly (mid ![0, 0] ![0, 0]) (1 / 4) [⟨![1, 0], ![1, 0]⟩]) (1 / 4)
      (by norm_num) rfl rfl rfl
  have hn : (![1, 0] : V 2) ≠ 0 := by
    intro hc
    have h0 := congrFun hc 0
    norm_num [Matrix.cons_val_zero] at h0
  have hfar : (1 / 4 : ℝ) * vnorm (![1, 0] : V 2) <
      |dot (![1, 0] : V 2) (mid ![0, 0] ![0, 0]) - dot (![1, 0] : V 2) ![1, 0]| := by
    rw [vnorm_e1]
    norm_num [dot, mid, Fin.sum_univ_two, Matrix.cons_val_zero, Matrix.cons_val_one,
      Matrix.head_cons]
  exact ⟨by norm_num, e1, e2, rfl, rfl, rfl, rfl, hn, hfar,
    c8_double_tighten stC8 stC8b stC8c (1 / 4) csW8a csW8b 0 0
      [⟨![1, 0], ![1, 0]⟩] ⟨![1, 0], ![1, 0]⟩ ![0, 0] ![0, 0]
      (by norm_num) e1 e2 rfl rfl rfl rfl hn hfar⟩

/-- Counterexample to C8 as stated: on `stC8` (face at distance 1 from the
interior point) with clearance `d = 2`, the first `set_constraints(·, 2)`
call moves the anchor to `(-1, 0)`, past the interior point; the second call
then resolves the opposite outward direction and moves the anchor back to
`(1, 0)`.  The total shift is zero, not the `2d = 4` the claim requires:
the claimed anchor would be `p − 2d·u = (-3, 0) ≠ (1, 0)`. -/
theorem c8_counterexample :
    set_constraints stC8 2 = some (csC8a, stC8b2) ∧
    set_constraints stC8b2 2 = some (csC8b, stC8c2) ∧
    stC8c2.polyhedrons_ = [[⟨![1, 0], ![1, 0]⟩]] ∧
    (fun k => (![1, 0] : V 2) k -
        2 * 2 * normalized (resolve (mid ![0, 0] ![0, 0]) ⟨![1, 0], ![1, 0]⟩) k) =
      ![(-3 : ℝ), 0] ∧
    (![(1 : ℝ), 0] : V 2) ≠ ![(-3 : ℝ), 0] := by
  have hres0 : resolve (mid ![0, 0] ![0, 0]) (⟨![1, 0], ![1, 0]⟩ : Hyperplane 2) =
      ![1, 0] := by
    unfold resolve
    rw [if_neg]
    norm_num [dot, mid, Fin.sum_univ_two, Matrix.cons_val_zero, Matrix.cons_val_one,
      Matrix.head_cons]
  have hface1 : tightenFace (mid ![0, 0] ![0, 0]) 2 (⟨![1, 0], ![1, 0]⟩ : Hyperplane 2) =
      ⟨![-1, 0], ![1, 0]⟩ := by
    show Hyperplane.mk
      (fun k => (![1, 0] : V 2) k -
        2 * normalized (resolve (mid ![0, 0] ![0, 0]) ⟨![1, 0], ![1, 0]⟩) k)
      ![1, 0] = _
    rw [hres0, normalized_e1]
    congr 1
    funext k
    fin_cases k <;> norm_num [Matrix.cons_val_zero, Matrix.cons_val_one, Matrix.head_cons]
  have hres1 : resolve (mid ![0, 0] ![0, 0]) (⟨![-1, 0], ![1, 0]⟩ : Hyperplane 2) =
      fun k => -((![1, 0] : V 2) k) := by
    unfold resolve
    rw [if_pos]
    norm_num [dot, mid, Fin.sum_univ_two, Matrix.cons_val_zero, Matrix.cons_val_one,
      Matrix.head_cons]
  have hface2 : tightenFace (mid ![0, 0] ![0, 0]) 2 (⟨![-1, 0], ![1, 0]⟩ : Hyperplane 2) =
      ⟨![1, 0], ![1, 0]⟩ := by
    show Hyperplane.mk
      (fun k => (![-1, 0] : V 2) k -
        2 * normalized (resolve (mid ![0, 0] ![0, 0]) ⟨![-1, 0], ![1, 0]⟩) k)
      ![1, 0] = _
    rw [hres1, normalized_neg, normalized_e1]
    congr 1
    funext k
    fin_cases k <;> norm_num [Matrix.cons_val_zero, Matrix.cons_val_one, Matrix.head_cons]
  have hdouble : tightenPoly (mid ![0, 0] ![0, 0]) 2
      (tightenPoly (mid ![0, 0] ![0, 0]) 2 [⟨![1, 0], ![1, 0]⟩]) =
      [⟨![1, 0], ![1, 0]⟩] := by
    simp only [tightenPoly, List.map_cons, List.map_nil, hface1, hface2]
  refine ⟨?_, ?_, rfl, ?_, ?_⟩
  · exact set_constraints_single stC8 [⟨![1, 0], ![1, 0]⟩] 2 (by norm_num) rfl rfl rfl
  · have e2 := set_constraints_single stC8b2
      (tightenPoly (mid ![0, 0] ![0, 0]) 2 [⟨![1, 0], ![1, 0]⟩]) 2
      (by norm_num) rfl rfl rfl
    rw [hdouble] at e2
    exact e2
  · rw [hres0, normalized_e1]
    funext k
    fin_cases k <;> norm_num [Matrix.cons_val_zero, Matrix.cons_val_one, Matrix.head_cons]
  · intro hc
    have h0 := congrFun hc 0
    norm_num [Matrix.cons_val_zero] at h0
